import Mathlib

/-!
Verification of the CKKS leveled-evaluation core described by the
repository's specification, against the example program
`src/native/examples/5_ckks_basics.cpp`.

The repository ships only the example program; the SEAL library it calls
(`Evaluator`, `CKKSEncoder`, `CoeffModulus`, `Encryptor`, `Decryptor`) is
not part of the sources.  Those operations are therefore modelled from the
specification (each such definition says so in its doc comment), while the
example's own flow (input construction, the exact sequence of evaluator
calls, the scale overwrites, the reference result) is translated directly
from the C++ source.

Modelling conventions:
* IEEE-754 doubles are modelled as exact rationals (`ℚ`).
* A ciphertext/plaintext carries its idealized per-slot message values as
  integers (the encoded fixed-point slot contents); the ring/RNS layer is
  opaque in the spec, so slot arithmetic stands for the ring arithmetic.
* Encryption and decryption are the spec's opaque, structurally lossless
  boundary: they transport the slot data unchanged (noise-free
  idealization; the spec models noise only as bounded precision loss).
-/

namespace SEAL

/-- The error taxonomy of the specification's evaluator (§7). -/
inductive EvaluatorError where
  | ModulusMismatch
  | ScaleMismatch
  | ChainExhausted
  | InvalidSize
  | InvalidTarget
deriving DecidableEq

/-- The error taxonomy of the specification's encoder (§7). -/
inductive EncodingError where
  | TooManyValues
  | Malformed
deriving DecidableEq

/-- Centered (balanced) residue of `x` modulo `n`: the representative of
`x mod n` lying in `[-(n/2), n - n/2)`.  Models "coefficient-wise modular"
arithmetic of the spec's ring layer on slot values. -/
def cmod (x : ℤ) (n : ℕ) : ℤ :=
  (x + (n / 2 : ℕ)) % (n : ℤ) - (n / 2 : ℕ)

/-- Modelled from the spec: the Context / ModulusChain (§3, §4.2).  The
`chain` lists the data primes of the coefficient modulus in the order they
are dropped by successive rescales (the special key-switching prime that
`CoeffModulus::Create` appends is key material, outside the ciphertext
chain).  `poly_modulus_degree` is the ring degree (a power of two). -/
structure Context where
  poly_modulus_degree : ℕ
  chain : List ℕ
deriving DecidableEq

/-- Number of plaintext slots: `poly_modulus_degree / 2` (§4.1). -/
def Context.slot_count (ctx : Context) : ℕ :=
  ctx.poly_modulus_degree / 2

/-- The terminal (last) chain position; `next` is `none` there (§4.2). -/
def Context.terminal (ctx : Context) : ℕ :=
  ctx.chain.length - 1

/-- `next(position)`: the following chain position, or `none` at the
terminal position (§4.2). -/
def Context.next (ctx : Context) (pos : ℕ) : Option ℕ :=
  if pos + 1 < ctx.chain.length then some (pos + 1) else none

/-- The product `Q_ℓ` of the primes still active at position `ℓ` (§4.2). -/
def Context.activeProduct (ctx : Context) (pos : ℕ) : ℕ :=
  (ctx.chain.drop pos).prod

/-- The prime removed when advancing from position `pos` (the prime a
rescale at `pos` divides by). -/
def Context.droppedPrime (ctx : Context) (pos : ℕ) : ℕ :=
  ctx.chain.getD pos 1

/-- Modelled from the spec: a Plaintext (§3) — encoded slot data tagged
with a scale and a chain position. -/
structure Plaintext where
  data : List ℤ
  scale : ℚ
  pos : ℕ
deriving DecidableEq

instance : Inhabited Plaintext := ⟨⟨[], 1, 0⟩⟩

/-- Modelled from the spec: a Ciphertext (§3) — slot data plus scale,
chain position and size (polynomial count: 2 when linear, 3 after an
un-relinearized multiplication). -/
structure Ciphertext where
  data : List ℤ
  scale : ℚ
  pos : ℕ
  size : ℕ
deriving DecidableEq

instance : Inhabited Ciphertext := ⟨⟨[], 1, 0, 2⟩⟩

/-- Modelled from the spec: RelinKeys are an opaque capability token
(§3); their internal decomposition structure is out of scope. -/
structure RelinKeys where
deriving DecidableEq

/-- Extract the success value of an `Except`, with a default on error.
Every use below is backed by a proof that the call succeeds. -/
def okD {ε α : Type} [Inhabited α] (x : Except ε α) : α :=
  match x with
  | .ok a => a
  | .error _ => default

/-- Modelled from the spec: scale compatibility "within tolerance"
(§4.3 add); the tolerance is taken as the double-precision machine
epsilon `2⁻⁵²` relative to the larger scale. -/
def scaleClose (a b : ℚ) : Bool :=
  decide (|a - b| * 2 ^ 52 ≤ max |a| |b|)

/-- Modelled from the spec: `encode(values, scale)` (§4.1).  Rejects more
than `slot_count` values with `TooManyValues`; otherwise each slot value
is multiplied by the scale and rounded to the nearest integer. -/
def encode (ctx : Context) (values : List ℚ) (scale : ℚ) :
    Except EncodingError Plaintext :=
  if values.length ≤ ctx.slot_count then
    .ok { data := values.map fun v => round (v * scale), scale := scale, pos := 0 }
  else
    .error .TooManyValues

/-- Modelled from the spec: `decode` (§4.1) — divide each slot by the
plaintext's scale. -/
def decode (p : Plaintext) : List ℚ :=
  p.data.map fun m : ℤ => (m : ℚ) / p.scale

/-- Modelled from the spec: encryption, the opaque boundary (§3, §4.4) —
produces a fresh linear (size-2) ciphertext carrying the plaintext's
data, scale and position. -/
def encrypt (p : Plaintext) : Ciphertext :=
  { data := p.data, scale := p.scale, pos := p.pos, size := 2 }

/-- Modelled from the spec: decryption, the opaque boundary (§4.4) —
always succeeds structurally, returning the carried data unchanged. -/
def decrypt (c : Ciphertext) : Plaintext :=
  { data := c.data, scale := c.scale, pos := c.pos }

/-- Modelled from the spec: `multiply(a, b)` (§4.3) — requires equal
chain positions, multiplies slot-wise modulo the active modulus, yields
`size = a.size + b.size - 1` and `scale = a.scale * b.scale`. -/
def multiply (ctx : Context) (a b : Ciphertext) :
    Except EvaluatorError Ciphertext :=
  if a.pos = b.pos then
    .ok { data := (a.data.zip b.data).map fun p =>
            cmod (p.1 * p.2) (ctx.activeProduct a.pos),
          scale := a.scale * b.scale, pos := a.pos, size := a.size + b.size - 1 }
  else
    .error .ModulusMismatch

/-- Modelled from the spec: `square(a)` (§4.3), the `a = b` case of
`multiply`. -/
def square (ctx : Context) (a : Ciphertext) : Except EvaluatorError Ciphertext :=
  multiply ctx a a

/-- Modelled from the spec: `relinearize(c, relin_keys)` (§4.3) —
requires `size = 3`, yields `size = 2` with chain position and scale
unchanged (a pure re-expression; the key matching condition is part of
the opaque key boundary). -/
def relinearize (c : Ciphertext) (_k : RelinKeys) :
    Except EvaluatorError Ciphertext :=
  if c.size = 3 then
    .ok { data := c.data, scale := c.scale, pos := c.pos, size := 2 }
  else
    .error .InvalidSize

/-- Modelled from the spec: `rescale_to_next(c)` (§4.3) — fails with
`ChainExhausted` at the terminal position; otherwise divides every slot
by the dropped prime `q`, rounding to nearest, modulo the remaining
primes, advances the position by one and sets `scale = c.scale / q`. -/
def rescale_to_next (ctx : Context) (c : Ciphertext) :
    Except EvaluatorError Ciphertext :=
  if c.pos + 1 < ctx.chain.length then
    .ok { data := c.data.map fun m : ℤ =>
            cmod (round ((m : ℚ) / (ctx.droppedPrime c.pos : ℚ)))
              (ctx.activeProduct (c.pos + 1)),
          scale := c.scale / (ctx.droppedPrime c.pos : ℚ),
          pos := c.pos + 1, size := c.size }
  else
    .error .ChainExhausted

/-- Modelled from the spec: `mod_switch_to(c, target_position)` (§4.3) —
the target must be reachable by advancing forward; drops the removed
primes without dividing, leaving the scale unchanged. -/
def mod_switch_to (ctx : Context) (c : Ciphertext) (target : ℕ) :
    Except EvaluatorError Ciphertext :=
  if c.pos ≤ target ∧ target < ctx.chain.length then
    .ok { data := c.data.map fun m => cmod m (ctx.activeProduct target),
          scale := c.scale, pos := target, size := c.size }
  else
    .error .InvalidTarget

/-- Modelled from the spec: `add(a, b)` (§4.3) — checks chain positions
(`ModulusMismatch`), then scale compatibility (`ScaleMismatch`), then
size compatibility (mixed sizes are an error in this design,
`InvalidSize`); on success adds slot-wise modulo the active modulus and
keeps `a`'s scale. -/
def add (ctx : Context) (a b : Ciphertext) : Except EvaluatorError Ciphertext :=
  if a.pos = b.pos then
    if scaleClose a.scale b.scale then
      if a.size = b.size then
        .ok { data := (a.data.zip b.data).map fun p =>
                cmod (p.1 + p.2) (ctx.activeProduct a.pos),
              scale := a.scale, pos := a.pos, size := a.size }
      else
        .error .InvalidSize
    else
      .error .ScaleMismatch
  else
    .error .ModulusMismatch

/-- The scale-overwrite `c.scale() = s` performed by the example
(`5_ckks_basics.cpp` lines 135-136); the spec's `align_scale` (§4.3). -/
def set_scale (c : Ciphertext) (s : ℚ) : Ciphertext :=
  { c with scale := s }

/-!
The example program `5_ckks_basics.cpp`, embedded step by step.
-/

/-- Modelled from the spec: the data primes produced by
`CoeffModulus::Create(8192, {60,40,40,60})` (§6: "CKKS-friendly"
primes of the requested bit lengths, i.e. the largest primes below
`2^b` congruent to `1 mod 2·degree = 16384`), listed in drop order:
the last data prime (a 40-bit prime) is dropped by the first rescale. -/
def examplePrimes : List ℕ :=
  [1099511480321, 1099510890497, 1152921504606748673]

/-- The context of the example: degree 8192, chain `{60,40,40,60}`
(`5_ckks_basics.cpp` lines 24-32). -/
def exampleContext : Context :=
  { poly_modulus_degree := 8192, chain := examplePrimes }

/-- `double scale = pow(2.0, 40)` (line 30). -/
def exampleScale : ℚ := 2 ^ 40

/-- The input-building loop (lines 52-60) in exact (real-valued)
arithmetic: starting from `cur`, push the current point and advance it
by `step`, `n` times.  This is the idealization of the double loop used
by the accuracy analysis; `buildInputFP` below is the bit-accurate
IEEE-754 version. -/
def buildInput (step : ℚ) : ℕ → ℚ → List ℚ
  | 0, _ => []
  | n + 1, cur => cur :: buildInput step n (cur + step)

/-- `step_size = 1.0 / (slot_count - 1)` (line 55) as the exact rational
`1/4095`; the binary64 value the program actually computes is `stepFP`
below. -/
def step_size : ℚ := 1 / ((exampleContext.slot_count : ℚ) - 1)

/-- The example's input vector in exact arithmetic: `slot_count` points
starting at 0 with step `step_size` (lines 52-60).  The bit-accurate
binary64 points are `inputFP` below; each differs from its exact
counterpart by at most a few units in the last place, which is
immaterial to the `10⁻³` end-to-end accuracy bound. -/
def exampleInput : List ℚ :=
  buildInput step_size exampleContext.slot_count 0

/-- `encoder.encode(input, scale, x_plain)` (line 69). -/
def x_plain : Plaintext :=
  okD (encode exampleContext exampleInput exampleScale)

/-- `encryptor.encrypt(x_plain, x1_encrypted)` (line 71). -/
def x1_encrypted : Ciphertext := encrypt x_plain

/-- The relinearization keys of the example (opaque token). -/
def exampleRelinKeys : RelinKeys := {}

/-- `evaluator.square(x1_encrypted, x2_encrypted)` (line 81). -/
def x2_squared : Ciphertext :=
  okD (square exampleContext x1_encrypted)

/-- `evaluator.relinearize_inplace(x2_encrypted, relin_keys)` (line 83). -/
def x2_relin : Ciphertext :=
  okD (relinearize x2_squared exampleRelinKeys)

/-- `evaluator.rescale_to_next_inplace(x2_encrypted)` (line 95). -/
def x2_rescaled : Ciphertext :=
  okD (rescale_to_next exampleContext x2_relin)

/-- `evaluator.mod_switch_to_inplace(x1_encrypted, last_parms_id)` where
`last_parms_id = x2_encrypted.parms_id()` (lines 112-113). -/
def x1_switched : Ciphertext :=
  okD (mod_switch_to exampleContext x1_encrypted x2_rescaled.pos)

/-- `x2_encrypted.scale() = pow(2.0, 40)` (line 135). -/
def x2_final : Ciphertext := set_scale x2_rescaled (2 ^ 40)

/-- `x1_encrypted.scale() = pow(2.0, 40)` (line 136). -/
def x1_final : Ciphertext := set_scale x1_switched (2 ^ 40)

/-- `evaluator.add(x2_encrypted, x1_encrypted, encrypted_result)`
(line 144). -/
def encrypted_result : Ciphertext :=
  okD (add exampleContext x2_final x1_final)

/-- `true_result`: the reference values `(x + 1) * x` (lines 153-158). -/
def true_result : List ℚ :=
  exampleInput.map fun x => (x + 1) * x

/-- `decryptor.decrypt(encrypted_result, plain_result)` (line 164). -/
def plain_result : Plaintext := decrypt encrypted_result

/-- `encoder.decode(plain_result, result)` (line 166). -/
def result : List ℚ := decode plain_result

/-!
A bit-accurate IEEE-754 binary64 embedding of the example's input loop
(lines 54-60).  A double is represented as a dyadic pair `(n, e) : ℕ × ℕ`
standing for the value `n / 2^e`; this covers every value the loop
produces (nonnegative normal numbers below 2, no overflow or subnormals).
Rounding is round-to-nearest with ties to even, the IEEE default mode.
-/

/-- Bit length of a natural number (`0` for `0`), by structural fuel
recursion so that it evaluates by kernel reduction; 128 bits of fuel
cover every number in this development. -/
def bitLenAux : ℕ → ℕ → ℕ
  | 0, _ => 0
  | fuel + 1, n => if n = 0 then 0 else bitLenAux fuel (n / 2) + 1

/-- Bit length of a natural number. -/
def bitLen (n : ℕ) : ℕ := bitLenAux 128 n

/-- Round `n / 2^s` to the nearest natural number, ties to even. -/
def rne (n s : ℕ) : ℕ :=
  if s = 0 then n
  else
    let q := n >>> s
    let r := n - (q <<< s)
    let h := 1 <<< (s - 1)
    if r < h then q
    else if h < r then q + 1
    else if q % 2 = 0 then q else q + 1

/-- Round the dyadic value `n / 2^e` to a 53-bit significand — the
binary64 rounding of an exact dyadic intermediate result. -/
def fl53 (n e : ℕ) : ℕ × ℕ :=
  if n = 0 then (0, 0)
  else
    let b := bitLen n
    if b ≤ 53 then (n, e)
    else (rne n (b - 53), e - (b - 53))

/-- The binary64 value nearest `n / d` (for `1 ≤ n ≤ d`, the normal-range
case used here): the correctly rounded result of the double division. -/
def flRat (n d : ℕ) : ℕ × ℕ :=
  if n = 0 ∨ d = 0 then (0, 0)
  else
    let t0 := 53 - bitLen n + (bitLen d - 1)
    let q0 := (n <<< t0) / d
    let t := if q0 < 2 ^ 52 then t0 + 1 else t0
    let q := (n <<< t) / d
    let r := (n <<< t) % d
    let m := if 2 * r < d then q
      else if d < 2 * r then q + 1
      else if q % 2 = 0 then q else q + 1
    (m, t)

/-- Binary64 addition: the exact dyadic sum, rounded to 53 bits (IEEE
addition is correctly rounded). -/
def flAdd (a b : ℕ × ℕ) : ℕ × ℕ :=
  let e := max a.2 b.2
  fl53 (a.1 <<< (e - a.2) + b.1 <<< (e - b.2)) e

/-- `step_size = 1.0 / (static_cast<double>(slot_count) - 1)` (line 55)
under binary64 semantics: the cast of 4096 and the subtraction are exact
(both integers below 2^53), and the division rounds `1/4095` to the
nearest double. -/
def stepFP : ℕ × ℕ := flRat 1 4095

/-- Force both components of a dyadic pair to evaluated form before
continuing; the identity function computationally, it keeps kernel
reduction of the iterated loop shallow. -/
def forcePair {α : Type} : ℕ × ℕ → (ℕ × ℕ → α) → α
  | (a, e), k =>
    match a, e with
    | 0, 0 => k (0, 0)
    | 0, e + 1 => k (0, e + 1)
    | a + 1, 0 => k (a + 1, 0)
    | a + 1, e + 1 => k (a + 1, e + 1)

/-- `n` iterations of `curr_point += step_size` in binary64. -/
def itFP : ℕ → ℕ × ℕ → ℕ × ℕ
  | 0, c => c
  | n + 1, c => forcePair c fun c' => itFP n (flAdd c' stepFP)

/-- The input-building loop (lines 54-60) under binary64 semantics:
push the current point, then add `stepFP` with IEEE rounding. -/
def buildInputFP : ℕ → ℕ × ℕ → List (ℕ × ℕ)
  | 0, _ => []
  | n + 1, c => forcePair c fun c' => c' :: buildInputFP n (flAdd c' stepFP)

/-- The example's input vector, bit-for-bit as the doubles the program
computes. -/
def inputFP : List (ℕ × ℕ) := buildInputFP exampleContext.slot_count (0, 0)

/-- The predicate "this double is strictly below 1". -/
def fpBelowOne (p : ℕ × ℕ) : Bool := decide (p.1 < 2 ^ p.2)

/-- The rational value of a dyadic pair. -/
def dyToRat (p : ℕ × ℕ) : ℚ := (p.1 : ℚ) / 2 ^ p.2

/-!
Named slot-data lists of the flow's intermediate ciphertexts, and the
step equations showing each evaluator call of the example succeeds and
what it produces.
-/

/-- Slot data of the encoded input. -/
def exampleData : List ℤ :=
  exampleInput.map fun v => round (v * exampleScale)

/-- Slot data after squaring. -/
def dataSq : List ℤ :=
  (exampleData.zip exampleData).map fun p =>
    cmod (p.1 * p.2) (exampleContext.activeProduct 0)

/-- Slot data after rescaling the square. -/
def dataSqRescaled : List ℤ :=
  dataSq.map fun m : ℤ =>
    cmod (round ((m : ℚ) / (exampleContext.droppedPrime 0 : ℚ)))
      (exampleContext.activeProduct 1)

/-- Slot data of the linear term after the modulus switch. -/
def dataSwitched : List ℤ :=
  exampleData.map fun m => cmod m (exampleContext.activeProduct 1)

/-- Slot data of the final sum. -/
def dataSum : List ℤ :=
  (dataSqRescaled.zip dataSwitched).map fun p =>
    cmod (p.1 + p.2) (exampleContext.activeProduct 1)

theorem buildInput_length (step : ℚ) :
    ∀ (n : ℕ) (cur : ℚ), (buildInput step n cur).length = n
  | 0, _ => rfl
  | n + 1, cur => by
      rw [buildInput, List.length_cons, buildInput_length step n]

theorem exampleInput_length : exampleInput.length = 4096 := by
  rw [exampleInput, buildInput_length]
  rfl

theorem x_plain_eq : x_plain = ⟨exampleData, exampleScale, 0⟩ := by
  rw [x_plain, encode, if_pos (by rw [exampleInput_length]; decide)]
  rfl

theorem x1_eq : x1_encrypted = ⟨exampleData, exampleScale, 0, 2⟩ := by
  rw [x1_encrypted, x_plain_eq, encrypt]

theorem square_ok :
    square exampleContext x1_encrypted =
      .ok ⟨dataSq, exampleScale * exampleScale, 0, 3⟩ := by
  rw [x1_eq, square, multiply, if_pos rfl]
  rfl

theorem x2_squared_eq :
    x2_squared = ⟨dataSq, exampleScale * exampleScale, 0, 3⟩ := by
  rw [x2_squared, square_ok]
  rfl

theorem x2_relin_eq :
    x2_relin = ⟨dataSq, exampleScale * exampleScale, 0, 2⟩ := by
  rw [x2_relin, x2_squared_eq, relinearize, if_pos rfl]
  rfl

theorem x2_rescaled_eq :
    x2_rescaled = ⟨dataSqRescaled,
      exampleScale * exampleScale / (exampleContext.droppedPrime 0 : ℚ), 1, 2⟩ := by
  rw [x2_rescaled, x2_relin_eq, rescale_to_next, if_pos (by decide)]
  rfl

theorem x1_switched_eq :
    x1_switched = ⟨dataSwitched, exampleScale, 1, 2⟩ := by
  rw [x1_switched, x2_rescaled_eq, x1_eq, mod_switch_to, if_pos (by decide)]
  rfl

theorem x2_final_eq : x2_final = ⟨dataSqRescaled, 2 ^ 40, 1, 2⟩ := by
  rw [x2_final, x2_rescaled_eq, set_scale]

theorem x1_final_eq : x1_final = ⟨dataSwitched, 2 ^ 40, 1, 2⟩ := by
  rw [x1_final, x1_switched_eq, set_scale]

theorem add_ok :
    add exampleContext x2_final x1_final = .ok ⟨dataSum, 2 ^ 40, 1, 2⟩ := by
  rw [x2_final_eq, x1_final_eq, add, if_pos rfl,
    if_pos (by rw [scaleClose]; simp), if_pos rfl]
  rfl

theorem encrypted_result_eq : encrypted_result = ⟨dataSum, 2 ^ 40, 1, 2⟩ := by
  rw [encrypted_result, add_ok]
  rfl

theorem result_eq : result = dataSum.map fun m : ℤ => (m : ℚ) / 2 ^ 40 := by
  rw [result, plain_result, encrypted_result_eq, decrypt, decode]

/-!
Theorems for the claims.
-/

/-- **C2.** For every ciphertext not at the terminal chain position,
`rescale_to_next` succeeds, advances the chain position by exactly one
step, and sets the resulting scale to the old scale divided by the
dropped prime (here exactly, hence within any relative error bound, in
particular `< 10⁻⁶`). -/
theorem rescale_monotone (ctx : Context) (c : Ciphertext)
    (h : c.pos < ctx.terminal) :
    ∃ c', rescale_to_next ctx c = .ok c' ∧
      c'.pos = c.pos + 1 ∧
      c'.scale = c.scale / (ctx.droppedPrime c.pos : ℚ) ∧
      |c'.scale - c.scale / (ctx.droppedPrime c.pos : ℚ)| ≤
        (1 / 1000000) * |c.scale / (ctx.droppedPrime c.pos : ℚ)| := by
  have hlt : c.pos + 1 < ctx.chain.length := by
    rw [Context.terminal] at h; omega
  rw [rescale_to_next, if_pos hlt]
  exact ⟨_, rfl, rfl, rfl, by simp⟩

/-- Witness for C2 at a concrete non-terminal ciphertext. -/
theorem rescale_monotone_witness :
    (Ciphertext.mk [] (2 ^ 40) 0 2).pos < exampleContext.terminal ∧
    ∃ c', rescale_to_next exampleContext (Ciphertext.mk [] (2 ^ 40) 0 2) = .ok c' ∧
      c'.pos = 0 + 1 ∧
      c'.scale = 2 ^ 40 / (exampleContext.droppedPrime 0 : ℚ) ∧
      |c'.scale - 2 ^ 40 / (exampleContext.droppedPrime 0 : ℚ)| ≤
        (1 / 1000000) * |(2 ^ 40 : ℚ) / (exampleContext.droppedPrime 0 : ℚ)| :=
  ⟨by decide, rescale_monotone exampleContext (Ciphertext.mk [] (2 ^ 40) 0 2) (by decide)⟩

/-- **C7.** For every ciphertext whose chain position is the terminal
position of the modulus chain, `rescale_to_next` fails with
`ChainExhausted`. -/
theorem rescale_terminal (ctx : Context) (c : Ciphertext)
    (h : c.pos = ctx.terminal) :
    rescale_to_next ctx c = .error .ChainExhausted := by
  have hge : ¬ (c.pos + 1 < ctx.chain.length) := by
    rw [Context.terminal] at h; omega
  rw [rescale_to_next, if_neg hge]

/-- Witness for C7 at a concrete terminal-position ciphertext. -/
theorem rescale_terminal_witness :
    (Ciphertext.mk [] (2 ^ 40) 2 2).pos = exampleContext.terminal ∧
    rescale_to_next exampleContext (Ciphertext.mk [] (2 ^ 40) 2 2) =
      .error .ChainExhausted :=
  ⟨by decide, rescale_terminal exampleContext (Ciphertext.mk [] (2 ^ 40) 2 2) (by decide)⟩

/-- **C5.** `mod_switch_to` succeeds exactly on targets reachable by
advancing forward (including staying put) within the chain, keeping the
scale unchanged, and fails with `InvalidTarget` on every backward or
out-of-chain target. -/
theorem mod_switch_spec (ctx : Context) (c : Ciphertext) (t : ℕ) :
    (c.pos ≤ t → t < ctx.chain.length →
      ∃ c', mod_switch_to ctx c t = .ok c' ∧ c'.scale = c.scale ∧
        c'.pos = t ∧ c'.size = c.size) ∧
    (¬ (c.pos ≤ t ∧ t < ctx.chain.length) →
      mod_switch_to ctx c t = .error .InvalidTarget) := by
  constructor
  · intro h1 h2
    rw [mod_switch_to, if_pos ⟨h1, h2⟩]
    exact ⟨_, rfl, rfl, rfl, rfl⟩
  · intro h
    rw [mod_switch_to, if_neg h]

/-- Witness for C5: a forward switch succeeds with unchanged scale and a
backward switch fails with `InvalidTarget`. -/
theorem mod_switch_spec_witness :
    (∃ c', mod_switch_to exampleContext (Ciphertext.mk [] (2 ^ 40) 0 2) 1 = .ok c' ∧
      c'.scale = (Ciphertext.mk [] (2 ^ 40) 0 2).scale ∧ c'.pos = 1 ∧
      c'.size = (Ciphertext.mk [] (2 ^ 40) 0 2).size) ∧
    mod_switch_to exampleContext (Ciphertext.mk [] (2 ^ 40) 2 2) 0 =
      .error .InvalidTarget :=
  ⟨(mod_switch_spec exampleContext (Ciphertext.mk [] (2 ^ 40) 0 2) 1).1
      (by decide) (by decide),
    (mod_switch_spec exampleContext (Ciphertext.mk [] (2 ^ 40) 2 2) 0).2 (by decide)⟩

/-- **C6.** `relinearize` requires size exactly 3 and produces a size-2
ciphertext with the same chain position and scale; on any other size —
including a second consecutive call — it fails with `InvalidSize`. -/
theorem relinearize_spec (c : Ciphertext) (k : RelinKeys) :
    (c.size = 3 → ∃ c', relinearize c k = .ok c' ∧ c'.size = 2 ∧
      c'.pos = c.pos ∧ c'.scale = c.scale) ∧
    (c.size ≠ 3 → relinearize c k = .error .InvalidSize) ∧
    (∀ c', relinearize c k = .ok c' → relinearize c' k = .error .InvalidSize) := by
  refine ⟨?_, ?_, ?_⟩
  · intro h
    rw [relinearize, if_pos h]
    exact ⟨_, rfl, rfl, rfl, rfl⟩
  · intro h
    rw [relinearize, if_neg h]
  · intro c' h
    by_cases hs : c.size = 3
    · rw [relinearize, if_pos hs] at h
      cases h
      simp [relinearize]
    · rw [relinearize, if_neg hs] at h
      cases h

/-- Witness for C6: relinearizing a concrete size-3 ciphertext succeeds
with size 2, a size-2 ciphertext is rejected, and a repeated call on the
produced ciphertext is rejected. -/
theorem relinearize_spec_witness :
    (∃ c', relinearize (Ciphertext.mk [] (2 ^ 80) 0 3) {} = .ok c' ∧ c'.size = 2 ∧
      c'.pos = (Ciphertext.mk [] (2 ^ 80) 0 3).pos ∧
      c'.scale = (Ciphertext.mk [] (2 ^ 80) 0 3).scale) ∧
    relinearize (Ciphertext.mk [] (2 ^ 80) 0 2) {} = .error .InvalidSize ∧
    relinearize (Ciphertext.mk [] (2 ^ 80) 0 2) {} = .error .InvalidSize :=
  ⟨(relinearize_spec (Ciphertext.mk [] (2 ^ 80) 0 3) {}).1 (by decide),
    (relinearize_spec (Ciphertext.mk [] (2 ^ 80) 0 2) {}).2.1 (by decide),
    (relinearize_spec (Ciphertext.mk [] (2 ^ 80) 0 3) {}).2.2
      (Ciphertext.mk [] (2 ^ 80) 0 2) (by rw [relinearize, if_pos rfl])⟩

/-- **C8.** `slot_count` is `poly_modulus_degree / 2` (4096 for degree
8192); `encode` accepts every value sequence of length at most
`slot_count` and fails with `TooManyValues` on every longer one. -/
theorem encode_spec (ctx : Context) (values : List ℚ) (s : ℚ) :
    ctx.slot_count = ctx.poly_modulus_degree / 2 ∧
    exampleContext.slot_count = 4096 ∧
    (values.length ≤ ctx.slot_count → ∃ p, encode ctx values s = .ok p) ∧
    (ctx.slot_count < values.length →
      encode ctx values s = .error .TooManyValues) := by
  refine ⟨rfl, rfl, ?_, ?_⟩
  · intro h
    rw [encode, if_pos h]
    exact ⟨_, rfl⟩
  · intro h
    rw [encode, if_neg (by omega)]

/-- Witness for C8: a 2-element sequence is accepted, a 4097-element
sequence is rejected. -/
theorem encode_spec_witness :
    (∃ p, encode exampleContext [0, 1] (2 ^ 40) = .ok p) ∧
    encode exampleContext (List.replicate 4097 (0 : ℚ)) (2 ^ 40) =
      .error .TooManyValues :=
  ⟨(encode_spec exampleContext [0, 1] (2 ^ 40)).2.2.1 (by decide),
    (encode_spec exampleContext (List.replicate 4097 (0 : ℚ)) (2 ^ 40)).2.2.2
      (by rw [List.length_replicate]; decide)⟩

/-- Counterexample for C4 as stated: two ciphertexts at the same chain
position with identical scales, but of sizes 2 and 3; `add` does not
return a sum ciphertext — it fails with `InvalidSize` (mixed sizes are
an error in this design). -/
theorem add_mixed_size_cex :
    (Ciphertext.mk [0] (2 ^ 40) 0 2).pos = (Ciphertext.mk [0] (2 ^ 40) 0 3).pos ∧
    scaleClose (Ciphertext.mk [0] (2 ^ 40) 0 2).scale
      (Ciphertext.mk [0] (2 ^ 40) 0 3).scale = true ∧
    add exampleContext (Ciphertext.mk [0] (2 ^ 40) 0 2)
      (Ciphertext.mk [0] (2 ^ 40) 0 3) = .error .InvalidSize := by
  refine ⟨rfl, ?_, ?_⟩
  · rw [scaleClose]
    simp
  · rw [add, if_pos rfl, if_pos (by rw [scaleClose]; simp), if_neg (by decide)]

/-- **C4 (amended).** `add` fails with `ModulusMismatch` whenever the
chain positions differ, fails with `ScaleMismatch` whenever the
positions agree but the scales differ beyond tolerance, and when both
preconditions hold *and the operand sizes are equal* it returns a
ciphertext with the scale of the first operand. -/
theorem add_spec (ctx : Context) (a b : Ciphertext) :
    (a.pos ≠ b.pos → add ctx a b = .error .ModulusMismatch) ∧
    (a.pos = b.pos → scaleClose a.scale b.scale = false →
      add ctx a b = .error .ScaleMismatch) ∧
    (a.pos = b.pos → scaleClose a.scale b.scale = true → a.size = b.size →
      ∃ c, add ctx a b = .ok c ∧ c.scale = a.scale) := by
  refine ⟨?_, ?_, ?_⟩
  · intro h
    rw [add, if_neg h]
  · intro h1 h2
    rw [add, if_pos h1, h2]
    simp
  · intro h1 h2 h3
    rw [add, if_pos h1, h2, if_pos rfl, if_pos h3]
    exact ⟨_, rfl, rfl⟩

/-- Witness for C4: the three branches of `add_spec` at concrete
ciphertexts — a position mismatch, a scale mismatch, and a successful
addition keeping the first operand's scale. -/
theorem add_spec_witness :
    add exampleContext (Ciphertext.mk [0] (2 ^ 40) 0 2)
      (Ciphertext.mk [0] (2 ^ 40) 1 2) = .error .ModulusMismatch ∧
    add exampleContext (Ciphertext.mk [0] (2 ^ 40) 0 2)
      (Ciphertext.mk [0] (2 ^ 41) 0 2) = .error .ScaleMismatch ∧
    ∃ c, add exampleContext (Ciphertext.mk [0] (2 ^ 40) 0 2)
      (Ciphertext.mk [0] (2 ^ 40) 0 2) = .ok c ∧ c.scale = 2 ^ 40 :=
  ⟨(add_spec exampleContext (Ciphertext.mk [0] (2 ^ 40) 0 2)
      (Ciphertext.mk [0] (2 ^ 40) 1 2)).1 (by decide),
    (add_spec exampleContext (Ciphertext.mk [0] (2 ^ 40) 0 2)
      (Ciphertext.mk [0] (2 ^ 41) 0 2)).2.1 rfl (by rw [scaleClose]; simp; norm_num),
    (add_spec exampleContext (Ciphertext.mk [0] (2 ^ 40) 0 2)
      (Ciphertext.mk [0] (2 ^ 40) 0 2)).2.2 rfl (by rw [scaleClose]; simp) rfl⟩

/-- **C3.** `multiply` on operands at the same chain position yields a
ciphertext of size `a.size + b.size - 1` with scale `a.scale * b.scale`;
`square` is the `a = b` case; in particular squaring the example's fresh
size-2, scale-`2^40` ciphertext yields a size-3 ciphertext of scale
`2^80`. -/
theorem multiply_spec (ctx : Context) (a b : Ciphertext) (h : a.pos = b.pos) :
    (∃ c, multiply ctx a b = .ok c ∧ c.size = a.size + b.size - 1 ∧
      c.scale = a.scale * b.scale) ∧
    square ctx a = multiply ctx a a ∧
    (x1_encrypted.size = 2 ∧ x1_encrypted.scale = 2 ^ 40 ∧
      ∃ c, square exampleContext x1_encrypted = .ok c ∧ c.size = 3 ∧
        c.scale = 2 ^ 80) := by
  refine ⟨?_, rfl, ?_, ?_, ?_⟩
  · rw [multiply, if_pos h]
    exact ⟨_, rfl, rfl, rfl⟩
  · rw [x1_eq]
  · rw [x1_eq]
    rfl
  · refine ⟨_, square_ok, rfl, ?_⟩
    show exampleScale * exampleScale = 2 ^ 80
    rw [exampleScale]
    norm_num

/-- Witness for C3: multiplying two concrete size-2, scale-`2^40`
ciphertexts at the same position gives size 3 and scale `2^40 · 2^40`. -/
theorem multiply_spec_witness :
    ∃ c, multiply exampleContext (Ciphertext.mk [] (2 ^ 40) 0 2)
        (Ciphertext.mk [] (2 ^ 40) 0 2) = .ok c ∧
      c.size = 2 + 2 - 1 ∧ c.scale = 2 ^ 40 * 2 ^ 40 :=
  (multiply_spec exampleContext (Ciphertext.mk [] (2 ^ 40) 0 2)
    (Ciphertext.mk [] (2 ^ 40) 0 2) rfl).1

/-- **C9.** In the example's flow, immediately after the rescale the
squared ciphertext's scale is `2^80` divided by the dropped 40-bit
prime — not exactly `2^40` — while the un-multiplied ciphertext's scale
is still exactly `2^40`, so the two differ; the program then overwrites
both scales to `2^40` (no tolerance check is performed — `set_scale` is
unconditional), after which the scales are exactly equal and the final
`add` succeeds, in particular it does not fail with `ScaleMismatch`. -/
theorem scale_workaround :
    x2_rescaled.scale = 2 ^ 80 / (exampleContext.droppedPrime 0 : ℚ) ∧
    2 ^ 39 ≤ exampleContext.droppedPrime 0 ∧
    exampleContext.droppedPrime 0 < 2 ^ 40 ∧
    x2_rescaled.scale ≠ 2 ^ 40 ∧
    x1_encrypted.scale = 2 ^ 40 ∧
    x1_switched.scale = 2 ^ 40 ∧
    x2_rescaled.scale ≠ x1_switched.scale ∧
    x2_final.scale = 2 ^ 40 ∧
    x1_final.scale = 2 ^ 40 ∧
    x2_final.scale = x1_final.scale ∧
    add exampleContext x2_final x1_final = .ok encrypted_result ∧
    add exampleContext x2_final x1_final ≠ .error .ScaleMismatch := by
  refine ⟨?_, by decide, by decide, ?_, ?_, ?_, ?_, ?_, ?_, ?_, ?_, ?_⟩
  · rw [x2_rescaled_eq]
    show exampleScale * exampleScale / _ = _
    rw [exampleScale]
    norm_num
  · rw [x2_rescaled_eq]
    show exampleScale * exampleScale / ((exampleContext.droppedPrime 0 : ℕ) : ℚ) ≠ _
    have h : exampleContext.droppedPrime 0 = 1099511480321 := rfl
    rw [h, exampleScale]
    rw [ne_eq, div_eq_iff (by norm_num)]
    norm_num
  · rw [x1_eq]
    rfl
  · rw [x1_switched_eq]
    rfl
  · rw [x2_rescaled_eq, x1_switched_eq]
    show exampleScale * exampleScale / ((exampleContext.droppedPrime 0 : ℕ) : ℚ) ≠ exampleScale
    have h : exampleContext.droppedPrime 0 = 1099511480321 := rfl
    rw [h, exampleScale]
    rw [ne_eq, div_eq_iff (by norm_num)]
    norm_num
  · rw [x2_final_eq]
  · rw [x1_final_eq]
  · rw [x2_final_eq, x1_final_eq]
  · rw [add_ok, encrypted_result_eq]
  · rw [add_ok]
    simp

theorem buildInput_getD (step : ℚ) :
    ∀ (n : ℕ) (cur : ℚ) (i : ℕ), i < n →
      (buildInput step n cur).getD i 0 = cur + i * step
  | 0, _, i, h => absurd h (Nat.not_lt_zero i)
  | n + 1, cur, 0, _ => by
      rw [buildInput]
      simp
  | n + 1, cur, i + 1, h => by
      rw [buildInput, List.getD_cons_succ,
        buildInput_getD step n (cur + step) i (by omega)]
      push_cast
      ring

theorem step_size_eq : step_size = 1 / 4095 := by
  have h : exampleContext.slot_count = 4096 := rfl
  rw [step_size, h]
  norm_num

theorem exampleInput_getD (i : ℕ) (h : i < 4096) :
    exampleInput.getD i 0 = i / 4095 := by
  have h4 : exampleContext.slot_count = 4096 := rfl
  rw [exampleInput, h4, buildInput_getD step_size 4096 0 i h, step_size_eq]
  ring

/-!
Evaluation of the binary64 input loop.  The 4096 iterations are settled
by kernel computation in four chunks of 1024, glued by the composition
lemmas below; each chunk theorem checks that every point of the chunk is
below 1 and records the chunk's last point.
-/

theorem forcePair_eq {α : Type} (c : ℕ × ℕ) (k : ℕ × ℕ → α) :
    forcePair c k = k c := by
  obtain ⟨a, e⟩ := c
  cases a <;> cases e <;> rfl

theorem itFP_succ (n : ℕ) (c : ℕ × ℕ) :
    itFP (n + 1) c = itFP n (flAdd c stepFP) := by
  rw [itFP, forcePair_eq]

theorem itFP_add (a : ℕ) : ∀ (b : ℕ) (c : ℕ × ℕ),
    itFP (a + b) c = itFP a (itFP b c)
  | 0, _ => rfl
  | b + 1, c => by
      rw [← Nat.add_assoc, itFP_succ, itFP_add a b (flAdd c stepFP), itFP_succ]

theorem buildInputFP_succ (n : ℕ) (c : ℕ × ℕ) :
    buildInputFP (n + 1) c = c :: buildInputFP n (flAdd c stepFP) := by
  rw [buildInputFP, forcePair_eq]

theorem buildInputFP_length : ∀ (n : ℕ) (c : ℕ × ℕ),
    (buildInputFP n c).length = n
  | 0, _ => rfl
  | n + 1, c => by
      rw [buildInputFP_succ, List.length_cons, buildInputFP_length n]

theorem buildInputFP_add (m : ℕ) : ∀ (n : ℕ) (c : ℕ × ℕ),
    buildInputFP (m + n) c = buildInputFP n c ++ buildInputFP m (itFP n c)
  | 0, _ => rfl
  | n + 1, c => by
      rw [← Nat.add_assoc, buildInputFP_succ, buildInputFP_succ,
        buildInputFP_add m n (flAdd c stepFP), itFP_succ, List.cons_append]

theorem buildInputFP_getD : ∀ (n i : ℕ) (c : ℕ × ℕ), i < n →
    (buildInputFP n c).getD i (0, 0) = itFP i c
  | 0, i, _, h => absurd h (Nat.not_lt_zero i)
  | n + 1, 0, c, _ => by rw [buildInputFP_succ]; rfl
  | n + 1, i + 1, c, h => by
      rw [buildInputFP_succ, List.getD_cons_succ,
        buildInputFP_getD n i (flAdd c stepFP) (by omega), itFP_succ]

set_option maxRecDepth 100000 in
theorem fpChunk1 : ((buildInputFP 1024 (0, 0)).all fpBelowOne = true) ∧
    (buildInputFP 1024 (0, 0)).getD 1023 (0, 0) = (9000600573968257, 55) := by
  decide

set_option maxRecDepth 100000 in
theorem fpChunk2 :
    ((buildInputFP 1024 (4504699407499265, 54)).all fpBelowOne = true) ∧
    (buildInputFP 1024 (4504699407499265, 54)).getD 1023 (0, 0) =
      (9004999694483393, 54) := by
  decide

set_option maxRecDepth 100000 in
theorem fpChunk3 :
    ((buildInputFP 1024 (4504699407499265, 53)).all fpBelowOne = true) ∧
    (buildInputFP 1024 (4504699407499265, 53)).getD 1023 (0, 0) =
      (6754849550991329, 53) := by
  decide

set_option maxRecDepth 100000 in
theorem fpChunk4 :
    ((buildInputFP 1024 (6757049111248897, 53)).all fpBelowOne = true) ∧
    (buildInputFP 1024 (6757049111248897, 53)).getD 1023 (0, 0) =
      (9007199254740961, 53) := by
  decide

theorem itFP_1024_step (c w : ℕ × ℕ)
    (h : (buildInputFP 1024 c).getD 1023 (0, 0) = w) :
    itFP 1024 c = flAdd w stepFP := by
  rw [show (1024 : ℕ) = 1 + 1023 from rfl, itFP_add,
    ← buildInputFP_getD 1024 1023 c (by omega), h, itFP_succ]
  rfl

theorem fpCk1 : itFP 1024 (0, 0) = (4504699407499265, 54) := by
  rw [itFP_1024_step _ _ fpChunk1.2]
  decide

theorem fpCk2 : itFP 1024 (4504699407499265, 54) = (4504699407499265, 53) := by
  rw [itFP_1024_step _ _ fpChunk2.2]
  decide

theorem fpCk3 : itFP 1024 (4504699407499265, 53) = (6757049111248897, 53) := by
  rw [itFP_1024_step _ _ fpChunk3.2]
  decide

theorem inputFP_last : inputFP.getD 4095 (0, 0) = (9007199254740961, 53) := by
  rw [show inputFP = buildInputFP 4096 (0, 0) from rfl,
    buildInputFP_getD 4096 4095 (0, 0) (by omega),
    show (4095 : ℕ) = 1023 + (1024 + (1024 + 1024)) from rfl,
    itFP_add, itFP_add, itFP_add, fpCk1, fpCk2, fpCk3,
    ← buildInputFP_getD 1024 1023 (6757049111248897, 53) (by omega)]
  exact fpChunk4.2

theorem inputFP_all : inputFP.all fpBelowOne = true := by
  rw [show inputFP = buildInputFP 4096 (0, 0) from rfl,
    show (4096 : ℕ) = 3072 + 1024 from rfl, buildInputFP_add, fpCk1,
    show (3072 : ℕ) = 2048 + 1024 from rfl, buildInputFP_add, fpCk2,
    show (2048 : ℕ) = 1024 + 1024 from rfl, buildInputFP_add, fpCk3]
  rw [List.all_append, fpChunk1.1, List.all_append, fpChunk2.1,
    List.all_append, fpChunk3.1, fpChunk4.1]
  rfl

theorem dyToRat_nonneg (p : ℕ × ℕ) : 0 ≤ dyToRat p := by
  rw [dyToRat]
  positivity

theorem dyToRat_lt_one {p : ℕ × ℕ} (h : p.1 < 2 ^ p.2) : dyToRat p < 1 := by
  rw [dyToRat, div_lt_one (by positivity)]
  exact_mod_cast h

theorem inputFP_bounds (i : ℕ) (h : i < 4096) :
    0 ≤ dyToRat (inputFP.getD i (0, 0)) ∧
      dyToRat (inputFP.getD i (0, 0)) < 1 := by
  have hlen : i < inputFP.length := by
    rw [show inputFP = buildInputFP 4096 (0, 0) from rfl, buildInputFP_length]
    omega
  have hmem : inputFP.getD i (0, 0) ∈ inputFP := by
    rw [List.getD_eq_getElem _ _ hlen]
    exact List.getElem_mem hlen
  have hp := List.all_eq_true.mp inputFP_all _ hmem
  exact ⟨dyToRat_nonneg _, dyToRat_lt_one (of_decide_eq_true hp)⟩

/-- **C10 (counterexample).** Under the IEEE-754 binary64 semantics of
the source's input loop, the final sample point is `9007199254740961/2^53
= 0.9999999999999966…` — strictly below 1 and in particular not exactly
1.0, so the sample points lie in the half-open interval `[0, 1)` — and
the realized step is the double nearest `1/4095`, not `1/4095` itself. -/
theorem input_points_cex :
    inputFP.getD 4095 (0, 0) = (9007199254740961, 53) ∧
    dyToRat (inputFP.getD 4095 (0, 0)) < 1 ∧
    dyToRat (inputFP.getD 4095 (0, 0)) ≠ 1 ∧
    dyToRat stepFP ≠ 1 / 4095 := by
  refine ⟨inputFP_last, ?_, ?_, ?_⟩
  · rw [inputFP_last]
    norm_num [dyToRat]
  · rw [inputFP_last]
    norm_num [dyToRat]
  · rw [show stepFP = (4504699407499280, 64) from by decide]
    norm_num [dyToRat]

/-- **C10 (amended).** The input vector built by the example has exactly
4096 entries, starting at 0 and advancing by the binary64 double nearest
`1/4095` (within half an ulp of it, but not equal to it); under IEEE-754
semantics the sample points lie in the half-open interval `[0, 1)`, the
final point being `9007199254740961/2^53 = 0.9999999999999966…`, strictly
below 1.0; the reference output the result is compared against is
`(x + 1) * x`, algebraically equal to `x² + x`, at each sample point. -/
theorem input_points_fp :
    inputFP.length = 4096 ∧
    inputFP.getD 0 (0, 0) = (0, 0) ∧
    dyToRat (0, 0) = 0 ∧
    stepFP = (4504699407499280, 64) ∧
    |dyToRat stepFP - 1 / 4095| < 1 / 4095 / 2 ^ 53 ∧
    (∀ i, i < 4096 → 0 ≤ dyToRat (inputFP.getD i (0, 0)) ∧
      dyToRat (inputFP.getD i (0, 0)) < 1) ∧
    inputFP.getD 4095 (0, 0) = (9007199254740961, 53) ∧
    true_result = exampleInput.map (fun x => (x + 1) * x) ∧
    ∀ x : ℚ, (x + 1) * x = x ^ 2 + x := by
  refine ⟨?_, ?_, by norm_num [dyToRat], by decide, ?_, inputFP_bounds,
    inputFP_last, rfl, fun x => by ring⟩
  · rw [show inputFP = buildInputFP 4096 (0, 0) from rfl, buildInputFP_length]
  · rw [show inputFP = buildInputFP 4096 (0, 0) from rfl, buildInputFP_succ]
    rfl
  · rw [show stepFP = (4504699407499280, 64) from by decide]
    norm_num [dyToRat]
    rw [abs_of_pos (by norm_num : (0 : ℚ) < 1 / 4721213561365038366720)]
    norm_num

/-- Witness for C10's quantified parts at a concrete index and a
concrete rational. -/
theorem input_points_fp_witness :
    (7 < 4096 ∧ 0 ≤ dyToRat (inputFP.getD 7 (0, 0)) ∧
      dyToRat (inputFP.getD 7 (0, 0)) < 1) ∧
    ((2 : ℚ) + 1) * 2 = 2 ^ 2 + 2 :=
  ⟨⟨by decide, input_points_fp.2.2.2.2.2.1 7 (by decide)⟩,
    input_points_fp.2.2.2.2.2.2.2.2 2⟩

/-!
The end-to-end accuracy claim.  `slotOut` is the per-slot value computed
by the whole pipeline; `result` is its map over the input points.
-/

theorem cmod_eq_self {x : ℤ} {n : ℕ} (h0 : 0 ≤ x) (h1 : 2 * x < (n : ℤ)) :
    cmod x n = x := by
  have hx : 0 ≤ x + ((n / 2 : ℕ) : ℤ) := by omega
  have hlt : x + ((n / 2 : ℕ) : ℤ) < (n : ℤ) := by omega
  rw [cmod, Int.emod_eq_of_lt hx hlt]
  ring

/-- The value the pipeline computes in one slot holding input `x`. -/
def slotOut (x : ℚ) : ℚ :=
  ((cmod
      (cmod (round (((cmod (round (x * exampleScale) * round (x * exampleScale))
            (exampleContext.activeProduct 0) : ℤ) : ℚ) /
          (exampleContext.droppedPrime 0 : ℚ)))
        (exampleContext.activeProduct 1)
      + cmod (round (x * exampleScale)) (exampleContext.activeProduct 1))
      (exampleContext.activeProduct 1) : ℤ) : ℚ) / 2 ^ 40

theorem dataSum_length : dataSum.length = 4096 := by
  simp [dataSum, dataSqRescaled, dataSwitched, dataSq, exampleData,
    exampleInput_length]

theorem result_slots : result = exampleInput.map slotOut := by
  rw [result_eq]
  apply List.ext_getElem
  · rw [List.length_map, dataSum_length, List.length_map, exampleInput_length]
  · intro i h1 h2
    simp only [dataSum, dataSqRescaled, dataSwitched, dataSq, exampleData,
      List.getElem_map, List.getElem_zip]
    rfl

set_option maxHeartbeats 2000000 in
theorem slotOut_bound (x : ℚ) (hx0 : 0 ≤ x) (hx1 : x ≤ 1) :
    |slotOut x - (x ^ 2 + x)| < 1 / 1000 := by
  have hQ0 : exampleContext.activeProduct 0 =
      1393795453374584303493399870381992904294401 := rfl
  have hQ1 : exampleContext.activeProduct 1 =
      1267649750203307321246103060481 := rfl
  have hq : exampleContext.droppedPrime 0 = 1099511480321 := rfl
  rw [slotOut, show exampleScale = (2 : ℚ) ^ 40 from rfl, hQ0, hQ1, hq]
  have hm := abs_sub_round (x * (2 : ℚ) ^ 40)
  set m : ℤ := round (x * (2 : ℚ) ^ 40) with hmdef
  rw [abs_le] at hm
  obtain ⟨hm1, hm2⟩ := hm
  have hx40 : 0 ≤ x * (2 : ℚ) ^ 40 := by positivity
  have hx40ub : x * (2 : ℚ) ^ 40 ≤ 2 ^ 40 := by nlinarith
  have hm0 : (0 : ℤ) ≤ m := by
    have hgt : (-1 : ℚ) < (m : ℚ) := by linarith
    have : (-1 : ℤ) < m := by exact_mod_cast hgt
    omega
  have hmubi : m ≤ 2 ^ 40 := by
    have hlt : ((m : ℤ) : ℚ) < ((2 ^ 40 + 1 : ℤ) : ℚ) := by push_cast; linarith
    have : m < 2 ^ 40 + 1 := by exact_mod_cast hlt
    omega
  have hmm : m * m ≤ 2 ^ 80 := by
    calc m * m ≤ 2 ^ 40 * m := mul_le_mul_of_nonneg_right hmubi hm0
      _ ≤ 2 ^ 40 * 2 ^ 40 := mul_le_mul_of_nonneg_left hmubi (by positivity)
      _ = 2 ^ 80 := by norm_num
  rw [cmod_eq_self (mul_nonneg hm0 hm0) (by push_cast; linarith)]
  push_cast
  have hw := abs_sub_round ((m : ℚ) * (m : ℚ) / 1099511480321)
  set w : ℤ := round ((m : ℚ) * (m : ℚ) / 1099511480321) with hwdef
  rw [abs_le] at hw
  obtain ⟨hw1, hw2⟩ := hw
  have hynn : 0 ≤ (m : ℚ) * (m : ℚ) / 1099511480321 := by positivity
  have hw0 : (0 : ℤ) ≤ w := by
    have hgt : (-1 : ℚ) < (w : ℚ) := by linarith
    have : (-1 : ℤ) < w := by exact_mod_cast hgt
    omega
  have hyub : (m : ℚ) * (m : ℚ) / 1099511480321 ≤ 2 ^ 41 - 1 := by
    rw [div_le_iff₀ (by norm_num)]
    have hmmq : (m : ℚ) * (m : ℚ) ≤ 2 ^ 80 := by exact_mod_cast hmm
    linarith
  have hwubi : w ≤ 2 ^ 41 := by
    have hlt : ((w : ℤ) : ℚ) < ((2 ^ 41 : ℤ) : ℚ) := by push_cast; linarith
    have : w < 2 ^ 41 := by exact_mod_cast hlt
    omega
  rw [cmod_eq_self hw0 (by push_cast; linarith),
    cmod_eq_self hm0 (by push_cast; linarith),
    cmod_eq_self (add_nonneg hw0 hm0) (by push_cast; linarith)]
  push_cast
  set e : ℚ := x * 2 ^ 40 - (m : ℚ) with he
  set d : ℚ := (m : ℚ) * (m : ℚ) / 1099511480321 - (w : ℚ) with hd
  have hwv : (w : ℚ) = (m : ℚ) * (m : ℚ) / 1099511480321 - d := by
    rw [hd]; ring
  have hmv : (m : ℚ) = x * 2 ^ 40 - e := by
    rw [he]; ring
  rw [hwv, hmv, abs_lt]
  constructor <;>
    nlinarith [hm1, hm2, hw1, hw2, hx0, hx1,
      mul_nonneg hx0 (by linarith : (0 : ℚ) ≤ 1 / 2 - e),
      mul_nonneg hx0 (by linarith : (0 : ℚ) ≤ 1 / 2 + e),
      mul_nonneg (by linarith : (0 : ℚ) ≤ 1 - x) hx0,
      mul_nonneg (by linarith : (0 : ℚ) ≤ 1 / 2 - e)
        (by linarith : (0 : ℚ) ≤ 1 / 2 + e),
      mul_nonneg (by linarith : (0 : ℚ) ≤ 1 / 2 - d)
        (by linarith : (0 : ℚ) ≤ 1 / 2 + d),
      sq_nonneg e, sq_nonneg x, sq_nonneg (x - 1)]

/-- **C1.** End-to-end: for every sample point `x` of the example's
input, the decrypted-and-decoded result differs from `x² + x` by less
than `10⁻³` in absolute value. -/
theorem ckks_end_to_end (i : ℕ) (h : i < 4096) :
    |result.getD i 0 -
      (exampleInput.getD i 0 ^ 2 + exampleInput.getD i 0)| < 1 / 1000 := by
  have hr : result.getD i 0 = slotOut (exampleInput.getD i 0) := by
    rw [result_slots]
    have hlen : i < (exampleInput.map slotOut).length := by
      rw [List.length_map, exampleInput_length]; omega
    have hlen' : i < exampleInput.length := by
      rw [exampleInput_length]; omega
    rw [List.getD_eq_getElem _ _ hlen, List.getElem_map,
      ← List.getD_eq_getElem _ _ hlen']
  rw [hr]
  have hx := exampleInput_getD i h
  apply slotOut_bound
  · rw [hx]
    exact div_nonneg (Nat.cast_nonneg i) (by norm_num)
  · rw [hx, div_le_one (by norm_num)]
    exact_mod_cast Nat.le_of_lt_succ h

/-- Witness for C1 at the first sample point. -/
theorem ckks_end_to_end_witness :
    0 < 4096 ∧
    |result.getD 0 0 -
      (exampleInput.getD 0 0 ^ 2 + exampleInput.getD 0 0)| < 1 / 1000 :=
  ⟨by decide, ckks_end_to_end 0 (by decide)⟩

end SEAL
